import Mathlib

/-!
Verification development for the Starlink measurement pipeline
(`src/config.py`, `src/data_transformation.py`, `src/data_analysis.py`).

The Python functions relevant to the checked properties are embedded
shallowly below:

* `process_result` (inner function of `transform_measurement` in
  `data_transformation.py`): decomposes a traceroute hop list into the
  user / bent-pipe / ground latency triple.  Python exceptions reachable
  inside it (the `ZeroDivisionError` raised by `mean_rtt /= len(hop['result'])`
  on an empty packet list) are modelled by an `Option` result.
* `probe_connection_analysis` (`data_analysis.py`): per-probe connection
  share fractions over a time window.
* `json_data_extraction` (`data_transformation.py`): newline-delimited JSON
  extraction into a sorted, re-indexed table.  Fatal Python exceptions are
  modelled with `Except`.

`pandas.DataFrame.sort_values` with its default `kind='quicksort'` promises
only a permutation of the rows ordered by the sort key — the order of rows
with equal keys is not specified.  That guarantee is captured by the
relation `sort_values_contract`; the executable pipeline picks one
admissible outcome (`List.insertionSort`) to stay a function.  Numbers are
modelled as `ℚ` (latencies) and `Int` (timestamps, counts).
-/

/-- Configuration constant `STARLINK_GATEWAY` from `config.py`. -/
def STARLINK_GATEWAY : String := "100.64.0.1"

/-- Configuration constant `STARLINK_ASN` from `config.py`. -/
def STARLINK_ASN : Int := 14593

/-- One packet attempt inside a hop result: optionally carries an `rtt`
value and a `from` responder address (field renamed `sender`, since `from`
is reserved in Lean). -/
structure Pkt where
  rtt : Option ℚ
  sender : Option String
deriving DecidableEq, Repr

/-- One hop of a measurement `result` list: either an error marker
(`error` key present) or a numbered hop with a packet list. -/
structure Hop where
  error : Option String
  hopIdx : Nat
  result : List Pkt
deriving DecidableEq, Repr

/-- A cell of the returned triple: a number or a sentinel / error string. -/
inductive Cell where
  | num (q : ℚ)
  | str (s : String)
deriving DecidableEq, Repr

/-- The accumulation `mean_rtt = 0; for pkt in hop['result']: if 'rtt' in
pkt: mean_rtt += pkt['rtt']` from `process_result`. -/
def sumRtt (pkts : List Pkt) : ℚ :=
  pkts.foldl (fun acc p => match p.rtt with | some r => acc + r | none => acc) 0

/-- The per-hop mean computation `mean_rtt /= len(hop['result'])`.  An empty
packet list makes Python raise `ZeroDivisionError`; that is modelled by
`none`. -/
def hopMeanRtt (h : Hop) : Option ℚ :=
  if h.result.length = 0 then none
  else some (sumRtt h.result / (h.result.length : ℚ))

/-- The test `'from' in hop['result'][0] and hop['result'][0]['from'] == ...`:
the responder address of the first packet attempt, when present. -/
def firstFrom (h : Hop) : Option String :=
  h.result.head?.bind Pkt.sender

/-- Python `round(x, 2)` (two decimal places). -/
def round2 (q : ℚ) : ℚ := ((round (q * 100) : ℤ) : ℚ) / 100

/-- The loop of `process_result` with its running state `user`, `bent_pipe`,
`ground`, `last_rtt`, followed by the two `return` statements after the
loop.  `total` is `len(result)`. -/
def process_result_loop (total : Nat) (hops : List Hop)
    (user bent ground last : ℚ) : Option (Cell × Cell × Cell) :=
  match hops with
  | [] =>
    if bent = 0 then
      some (.num user, .str "Startlink gateway not in the path", .num ground)
    else
      some (.num (round2 user), .num (round2 bent), .num (round2 ground))
  | h :: rest =>
    match h.error with
    | some e => some (.str ("Error: " ++ e), .str ("Error: " ++ e), .str ("Error: " ++ e))
    | none =>
      match hopMeanRtt h with
      | none => none
      | some mean_rtt =>
        if firstFrom h = some STARLINK_GATEWAY then
          process_result_loop total rest last (mean_rtt - last) ground mean_rtt
        else if h.hopIdx = total then
          process_result_loop total rest user bent (mean_rtt - user - bent) mean_rtt
        else
          process_result_loop total rest user bent ground mean_rtt

/-- Embedding of `process_result` from `transform_measurement`
(`data_transformation.py`): all four state variables start at `0`. -/
def process_result (hops : List Hop) : Option (Cell × Cell × Cell) :=
  process_result_loop hops.length hops 0 0 0 0

/-- Modelled from the spec: the claimed per-hop mean where packets without
an RTT are excluded from both the numerator and the denominator. -/
def mean_rtt_spec (h : Hop) : ℚ :=
  (h.result.filterMap Pkt.rtt).sum / ((h.result.filterMap Pkt.rtt).length : ℚ)

/-! ### Connection-time aggregator (`probe_connection_analysis`) -/

/-- One row of the probes-history table consumed by
`probe_connection_analysis` (`data_analysis.py`): columns `probe_id`,
`asn`, `status`, `since`.  A missing `asn_v4` value is modelled as
`none`. -/
structure HistRow where
  probe_id : Int
  asn : Option Int
  status : String
  since : Int
deriving DecidableEq, Repr

/-- Ordering on history rows used by `probe_data.sort_values(by='since')`. -/
abbrev sinceLe : HistRow → HistRow → Prop := fun a b => a.since ≤ b.since

instance : IsTotal HistRow sinceLe := ⟨fun a b => Int.le_total a.since b.since⟩

instance : IsTrans HistRow sinceLe := ⟨fun _ _ _ hab hbc => le_trans hab hbc⟩

/-- Embedding of `probe_data.sort_values(by='since')`. -/
def sortBySince (rows : List HistRow) : List HistRow :=
  rows.insertionSort sinceLe

/-- Embedding of `probe_data['until'] = probe_data['since'].shift(-1,
fill_value=end_time)`: pairs each row with the next row's `since`, the last
row with `end_time`. -/
def withUntil (e : Int) : List HistRow → List (HistRow × Int)
  | [] => []
  | [r] => [(r, e)]
  | r :: r2 :: rest => (r, r2.since) :: withUntil e (r2 :: rest)

/-- Embedding of the window filter
`probe_data[(probe_data['since'] < end_time) & (probe_data['until'] > start_time)]`. -/
def keptRows (s e : Int) (l : List (HistRow × Int)) : List (HistRow × Int) :=
  l.filter (fun p => decide (p.1.since < e) && decide (s < p.2))

/-- A row after clipping `since`/`until` to the analysis window. -/
structure ClipRow where
  asn : Option Int
  status : String
  since : Int
  untilT : Int
deriving DecidableEq, Repr

/-- Embedding of `probe_data['since'].clip(lower=start_time)` and
`probe_data['until'].clip(upper=end_time)`. -/
def clipRows (s e : Int) (l : List (HistRow × Int)) : List ClipRow :=
  l.map (fun p => ⟨p.1.asn, p.1.status, max p.1.since s, min p.2 e⟩)

/-- The accumulation loop over `probe_data.iterrows()` with state
`(starlink_time, other_time, disconnected_time)`. -/
def tallyTimes : List ClipRow → Int × Int × Int → Int × Int × Int
  | [], acc => acc
  | c :: rest, (st, ot, dc) =>
    if c.status = "Connected" then
      if c.asn = some STARLINK_ASN then
        tallyTimes rest (st + (c.untilT - c.since), ot, dc)
      else
        tallyTimes rest (st, ot + (c.untilT - c.since), dc)
    else if c.status = "Disconnected" then
      tallyTimes rest (st, ot, dc + (c.untilT - c.since))
    else
      tallyTimes rest (st, ot, dc)

/-- The body of the per-probe loop of `probe_connection_analysis`: sort by
`since`, derive `until`, filter to the window, clip, and accumulate the
three times. -/
def probe_shares (s e : Int) (rows : List HistRow) : Int × Int × Int :=
  tallyTimes (clipRows s e (keptRows s e (withUntil e (sortBySince rows)))) (0, 0, 0)

/-- First-occurrence deduplication, the embedding of
`probe_history['probe_id'].unique()`. -/
def uniqueKeysAux (seen : List Int) : List Int → List Int
  | [] => []
  | x :: xs =>
    if x ∈ seen then uniqueKeysAux seen xs
    else x :: uniqueKeysAux (x :: seen) xs

/-- Unique probe ids in order of first appearance. -/
def uniqueKeys (l : List Int) : List Int := uniqueKeysAux [] l

/-- Embedding of `probe_connection_analysis(probe_history, start_time,
end_time)` from `data_analysis.py`: one `(probe_id, starlink, other,
disconnected)` row per probe, each time divided by
`end_time - start_time`. -/
def probe_connection_analysis (probe_history : List HistRow)
    (start_time end_time : Int) : List (Int × ℚ × ℚ × ℚ) :=
  (uniqueKeys (probe_history.map (fun r => r.probe_id))).map (fun pid =>
    let t := probe_shares start_time end_time
      (probe_history.filter (fun r => decide (r.probe_id = pid)))
    (pid,
      (t.1 : ℚ) / ((end_time : ℚ) - (start_time : ℚ)),
      (t.2.1 : ℚ) / ((end_time : ℚ) - (start_time : ℚ)),
      (t.2.2 : ℚ) / ((end_time : ℚ) - (start_time : ℚ))))

/-! ### Raw record extractor (`json_data_extraction`) -/

/-- A JSON value, as far as the extractor consumes it. -/
inductive JVal where
  | num (n : Int)
  | str (s : String)
  | obj (flds : List (String × JVal))
  | arr (elems : List JVal)
deriving Repr

/-- Key lookup in the field list of a JSON object. -/
def lookupField : List (String × JVal) → String → Option JVal
  | [], _ => none
  | (k, v) :: rest, key => if k = key then some v else lookupField rest key

/-- Python `record[key]` on a JSON object; `none` models the `KeyError`
(or `TypeError` on a non-object). -/
def jlookup (v : JVal) (key : String) : Option JVal :=
  match v with
  | .obj fs => lookupField fs key
  | _ => none

/-- A configured field: a single name or a path of nested names. -/
inductive FieldPath where
  | name (s : String)
  | path (l : List String)
deriving DecidableEq, Repr

/-- Nested indexing `for subfield in field: nested_value = nested_value[subfield]`. -/
def jpath : JVal → List String → Option JVal
  | v, [] => some v
  | v, k :: ks =>
    match jlookup v k with
    | none => none
    | some v2 => jpath v2 ks

/-- Value of one configured field inside a record. -/
def getField (rec : JVal) : FieldPath → Option JVal
  | .name s => jlookup rec s
  | .path l => jpath rec l

/-- Python `str(field)` used as the key of the `maps` dictionary: the name
itself, or the `str` of a list of strings. -/
def strOfField : FieldPath → String
  | .name s => s
  | .path l => "[" ++ String.intercalate ", " (l.map (fun s => "'" ++ s ++ "'")) ++ "]"

/-- Application of the optional per-field transform:
`if maps and str(field) in maps: value = maps[str(field)](value)`. -/
def applyMaps (maps : List (String × (JVal → JVal))) (f : FieldPath) (v : JVal) : JVal :=
  match maps.find? (fun p => decide (p.1 = strOfField f)) with
  | some pf => pf.2 v
  | none => v

/-- Building one row: the inner `for field in fields` loop; `none` models a
fatal `KeyError`. -/
def buildRow (maps : List (String × (JVal → JVal))) (rec : JVal) :
    List FieldPath → Option (List JVal)
  | [] => some []
  | f :: fs =>
    match getField rec f with
    | none => none
    | some v =>
      match buildRow maps rec fs with
      | none => none
      | some row => some (applyMaps maps f v :: row)

/-- Python `'count' in record`. -/
def hasCount (rec : JVal) : Bool := (jlookup rec "count").isSome

/-- Python `record['count'] == len(data)` (an integer comparison; a
non-numeric `count` value compares unequal). -/
def countEq (rec : JVal) (n : Nat) : Bool :=
  match jlookup rec "count" with
  | some (.num m) => m == (n : Int)
  | _ => false

/-- The fatal errors of the extractor: the failed `assert` on the `count`
footer, a missing key, the `pandas` column-width check, and the
`columns[0]` access on an empty column list. -/
inductive ExtractError where
  | dataIntegrity
  | keyNotFound
  | valueError
  | indexError
deriving DecidableEq, Repr

/-- The `for line in file` loop of `json_data_extraction`, carrying the
accumulated `data`. -/
def extractLoop (fields : List FieldPath) (maps : List (String × (JVal → JVal))) :
    List JVal → List (List JVal) → Except ExtractError (List (List JVal))
  | [], acc => .ok acc
  | rec :: rest, acc =>
    if hasCount rec then
      if countEq rec acc.length then extractLoop fields maps rest acc
      else .error .dataIntegrity
    else
      match buildRow maps rec fields with
      | none => .error .keyNotFound
      | some row => extractLoop fields maps rest (acc ++ [row])

/-- Comparison on cell values used for `sort_values(by=columns[0])`:
numbers and strings are compared by value; rank separates the shapes, and
objects and arrays of equal rank compare as ties. -/
def jle (a b : JVal) : Prop :=
  match a, b with
  | .num x, .num y => x ≤ y
  | .num _, _ => True
  | .str _, .num _ => False
  | .str x, .str y => x ≤ y
  | .str _, .obj _ => True
  | .str _, .arr _ => True
  | .obj _, .num _ => False
  | .obj _, .str _ => False
  | .obj _, _ => True
  | .arr _, .arr _ => True
  | .arr _, _ => False

instance : DecidableRel jle := fun a b =>
  match a, b with
  | .num x, .num y => inferInstanceAs (Decidable (x ≤ y))
  | .num _, .str _ => inferInstanceAs (Decidable True)
  | .num _, .obj _ => inferInstanceAs (Decidable True)
  | .num _, .arr _ => inferInstanceAs (Decidable True)
  | .str _, .num _ => inferInstanceAs (Decidable False)
  | .str x, .str y => inferInstanceAs (Decidable (x ≤ y))
  | .str _, .obj _ => inferInstanceAs (Decidable True)
  | .str _, .arr _ => inferInstanceAs (Decidable True)
  | .obj _, .num _ => inferInstanceAs (Decidable False)
  | .obj _, .str _ => inferInstanceAs (Decidable False)
  | .obj _, .obj _ => inferInstanceAs (Decidable True)
  | .obj _, .arr _ => inferInstanceAs (Decidable True)
  | .arr _, .num _ => inferInstanceAs (Decidable False)
  | .arr _, .str _ => inferInstanceAs (Decidable False)
  | .arr _, .obj _ => inferInstanceAs (Decidable False)
  | .arr _, .arr _ => inferInstanceAs (Decidable True)

/-- The value of the first configured column in a row. -/
def rowKey (r : List JVal) : Option JVal := r.head?

/-- Lift of `jle` to optional keys (an absent key sorts first). -/
def optJle : Option JVal → Option JVal → Prop
  | none, _ => True
  | some _, none => False
  | some a, some b => jle a b

instance : DecidableRel optJle := fun a b =>
  match a, b with
  | none, _ => inferInstanceAs (Decidable True)
  | some _, none => inferInstanceAs (Decidable False)
  | some x, some y => inferInstanceAs (Decidable (jle x y))

/-- Row order for `sort_values(by=columns[0])` on index-carrying rows. -/
abbrev rowLe : Nat × List JVal → Nat × List JVal → Prop :=
  fun a b => optJle (rowKey a.2) (rowKey b.2)

/-- A data frame: column names and rows carrying their index. -/
structure DFrame where
  cols : List String
  rows : List (Nat × List JVal)
deriving Repr

/-- Embedding of `pd.DataFrame(data, columns=columns)`: rows are indexed
`0, 1, 2, ...` in input order. -/
def mkDFrame (data : List (List JVal)) (columns : List String) : DFrame :=
  ⟨columns, data.enum⟩

/-- Embedding of `.sort_values(by=columns[0])` as one concrete outcome of
the code's sort (row indices are carried along, as in pandas); the
guarantee the call actually provides is `sort_values_contract` below, and
this function is one admissible outcome of it. -/
def sort_values (df : DFrame) : DFrame :=
  ⟨df.cols, df.rows.insertionSort rowLe⟩

/-- What `df.sort_values(by=columns[0])` with the default
`kind='quicksort'` guarantees about its result: the same columns and a
permutation of the rows that is ordered by the first column's value.  The
relative order of rows with equal keys is not part of the guarantee (the
default sort kind is not stable). -/
def sort_values_contract (df out : DFrame) : Prop :=
  out.cols = df.cols ∧ List.Perm out.rows df.rows ∧ List.Pairwise rowLe out.rows

/-- Embedding of `df.reset_index(drop=True, inplace=True)`. -/
def reset_index (df : DFrame) : DFrame :=
  ⟨df.cols, (df.rows.map Prod.snd).enum⟩

/-- Embedding of `json_data_extraction` (`data_transformation.py`): run the
line loop, then build, sort and re-index the frame.  The pandas width
check and the `columns[0]` access of the sort key are modelled as the
errors they raise in Python. -/
def json_data_extraction (lines : List JVal) (columns : List String)
    (fields : List FieldPath) (maps : List (String × (JVal → JVal))) :
    Except ExtractError DFrame :=
  match extractLoop fields maps lines [] with
  | .error e => .error e
  | .ok data =>
    if data.any (fun r => decide (r.length ≠ columns.length)) then .error .valueError
    else if columns.isEmpty then .error .indexError
    else .ok (reset_index (sort_values (mkDFrame data columns)))

/-! ### Helper lemmas for `process_result` -/

/-- The packet-loop accumulation equals the sum of the RTT values present. -/
theorem sumRtt_eq (pkts : List Pkt) : sumRtt pkts = (pkts.filterMap Pkt.rtt).sum := by
  have main : ∀ (l : List Pkt) (acc : ℚ),
      l.foldl (fun acc p => match p.rtt with | some r => acc + r | none => acc) acc
        = acc + (l.filterMap Pkt.rtt).sum := by
    intro l
    induction l with
    | nil => intro acc; simp
    | cons p l ih =>
      intro acc
      cases hp : p.rtt with
      | none => simp [List.foldl_cons, hp, List.filterMap_cons, ih]
      | some r => simp [List.foldl_cons, hp, List.filterMap_cons, ih, add_assoc]
  simpa using main pkts 0

/-- If no hop carries an error and no hop's first packet reports the
gateway address, a completed run of the loop with `bent = 0` ends in the
sentinel return, with `user` passed through untouched. -/
theorem loop_no_gateway (hops : List Hop) :
    ∀ (total : Nat) (user ground last : ℚ) (t : Cell × Cell × Cell),
      (∀ h ∈ hops, h.error = none) →
      (∀ h ∈ hops, firstFrom h ≠ some STARLINK_GATEWAY) →
      process_result_loop total hops user 0 ground last = some t →
      ∃ g : ℚ, t = (.num user, .str "Startlink gateway not in the path", .num g) := by
  induction hops with
  | nil =>
    intro total user ground last t _ _ hres
    simp [process_result_loop] at hres
    exact ⟨ground, hres.symm⟩
  | cons h rest ih =>
    intro total user ground last t herr hgw hres
    have he : h.error = none := herr h (List.mem_cons_self h rest)
    have hg : firstFrom h ≠ some STARLINK_GATEWAY := hgw h (List.mem_cons_self h rest)
    have herr' : ∀ x ∈ rest, x.error = none := fun x hx => herr x (List.mem_cons_of_mem h hx)
    have hgw' : ∀ x ∈ rest, firstFrom x ≠ some STARLINK_GATEWAY :=
      fun x hx => hgw x (List.mem_cons_of_mem h hx)
    cases hm : hopMeanRtt h with
    | none => simp [process_result_loop, he, hm] at hres
    | some m =>
      by_cases hi : h.hopIdx = total
      · simp only [process_result_loop, he, hm, hg, hi, if_true, if_false, ite_true, ite_false,
          eq_self_iff_true, if_neg hg, if_pos rfl] at hres
        exact ih total user (m - user - 0) m t herr' hgw' hres
      · simp only [process_result_loop, he, hm, if_neg hg, if_neg hi] at hres
        exact ih total user ground m t herr' hgw' hres

/-- Hops preceding an error hop are traversed without failing when each has
a nonempty packet list; the first error hop then returns the error triple. -/
theorem loop_error (pre : List Hop) :
    ∀ (total : Nat) (post : List Hop) (h : Hop) (msg : String) (user bent ground last : ℚ),
      (∀ x ∈ pre, x.error = none ∧ x.result ≠ []) →
      h.error = some msg →
      process_result_loop total (pre ++ h :: post) user bent ground last =
        some (.str ("Error: " ++ msg), .str ("Error: " ++ msg), .str ("Error: " ++ msg)) := by
  induction pre with
  | nil =>
    intro total post h msg user bent ground last _ hmsg
    rw [List.nil_append, process_result_loop, hmsg]
  | cons x pre ih =>
    intro total post h msg user bent ground last hpre hmsg
    obtain ⟨hxe, hxr⟩ := hpre x (List.mem_cons_self x pre)
    have hlen : x.result.length ≠ 0 := by simpa [List.length_eq_zero] using hxr
    have hpre' : ∀ y ∈ pre, y.error = none ∧ y.result ≠ [] :=
      fun y hy => hpre y (List.mem_cons_of_mem x hy)
    rw [List.cons_append]
    by_cases hf : firstFrom x = some STARLINK_GATEWAY
    · simp only [process_result_loop, hxe, hopMeanRtt, if_neg hlen, if_pos hf]
      exact ih total post h msg _ _ _ _ hpre' hmsg
    · by_cases hi : x.hopIdx = total
      · simp only [process_result_loop, hxe, hopMeanRtt, if_neg hlen, if_neg hf, if_pos hi]
        exact ih total post h msg _ _ _ _ hpre' hmsg
      · simp only [process_result_loop, hxe, hopMeanRtt, if_neg hlen, if_neg hf, if_neg hi]
        exact ih total post h msg _ _ _ _ hpre' hmsg

/-! ### Claims about `process_result` (decompose) -/

/-- C1, counterexample: a hop list in which no hop's first packet reports
the relay-gateway address, yet the returned triple does not carry the
sentinel in all three fields — the user field is the number 0 and the
ground field is the number 10, only the middle field is the sentinel. -/
theorem claim1_counterexample :
    (∀ h ∈ [Hop.mk none 1 [Pkt.mk (some 10) (some "1.2.3.4")]],
        firstFrom h ≠ some STARLINK_GATEWAY) ∧
    process_result [Hop.mk none 1 [Pkt.mk (some 10) (some "1.2.3.4")]] =
      some (.num 0, .str "Startlink gateway not in the path", .num 10) ∧
    Cell.num 10 ≠ Cell.str "Startlink gateway not in the path" := by
  refine ⟨by simp +decide [firstFrom, STARLINK_GATEWAY], ?_, by simp⟩
  simp +decide only [process_result, process_result_loop, hopMeanRtt, sumRtt, firstFrom,
    STARLINK_GATEWAY, List.foldl, List.length, List.head?, Option.bind]
  norm_num

/-- C1, amended: when no hop carries an error, no hop's first packet
reports the relay-gateway address, and the loop completes, `process_result`
returns the sentinel string in the relay (middle) field only; the user
field is the number 0 (it is never assigned in this case) and the ground
field keeps the numeric value computed during the loop. -/
theorem claim1_theorem (hops : List Hop) (t : Cell × Cell × Cell)
    (herr : ∀ h ∈ hops, h.error = none)
    (hgw : ∀ h ∈ hops, firstFrom h ≠ some STARLINK_GATEWAY)
    (hres : process_result hops = some t) :
    ∃ g : ℚ, t = (.num 0, .str "Startlink gateway not in the path", .num g) :=
  loop_no_gateway hops hops.length 0 0 0 t herr hgw hres

/-- C1, witness: the amended statement applied to the one-hop list above. -/
theorem claim1_witness :
    ∃ g : ℚ, ((Cell.num 0, Cell.str "Startlink gateway not in the path", Cell.num 10) :
      Cell × Cell × Cell) = (.num 0, .str "Startlink gateway not in the path", .num g) :=
  claim1_theorem [Hop.mk none 1 [Pkt.mk (some 10) (some "1.2.3.4")]] _
    (by simp)
    (by simp +decide [firstFrom, STARLINK_GATEWAY])
    (by
      simp +decide only [process_result, process_result_loop, hopMeanRtt, sumRtt, firstFrom,
        STARLINK_GATEWAY, List.foldl, List.length, List.head?, Option.bind]
      norm_num)

/-- C2, counterexample: a hop with one RTT-carrying packet (rtt 10) and one
packet without an RTT.  The code computes mean_rtt = 10 / 2 = 5 (the
RTT-less packet stays in the denominator), not the claimed mean 10 over
RTT-carrying packets only, and the difference is observable in the
returned ground value. -/
theorem claim2_counterexample :
    hopMeanRtt (Hop.mk none 1 [Pkt.mk (some 10) none, Pkt.mk none none]) = some 5 ∧
    mean_rtt_spec (Hop.mk none 1 [Pkt.mk (some 10) none, Pkt.mk none none]) = 10 ∧
    hopMeanRtt (Hop.mk none 1 [Pkt.mk (some 10) none, Pkt.mk none none]) ≠
      some (mean_rtt_spec (Hop.mk none 1 [Pkt.mk (some 10) none, Pkt.mk none none])) ∧
    process_result [Hop.mk none 1 [Pkt.mk (some 10) none, Pkt.mk none none]] =
      some (.num 0, .str "Startlink gateway not in the path", .num 5) := by
  refine ⟨?_, ?_, ?_, ?_⟩
  · simp +decide only [hopMeanRtt, sumRtt, List.foldl, List.length]
    norm_num
  · simp +decide only [mean_rtt_spec, List.filterMap_cons, List.filterMap_nil, List.length,
      List.sum_cons, List.sum_nil]
    norm_num
  · simp +decide only [hopMeanRtt, sumRtt, mean_rtt_spec, List.foldl, List.length,
      List.filterMap_cons, List.filterMap_nil, List.sum_cons, List.sum_nil]
    norm_num
  · simp +decide only [process_result, process_result_loop, hopMeanRtt, sumRtt, firstFrom,
      STARLINK_GATEWAY, List.foldl, List.length, List.head?, Option.bind]
    norm_num

/-- C2, amended: for a non-error hop with a nonempty packet list, the mean
is the sum of the RTT values present divided by the total number of packet
attempts — packets without an RTT are excluded from the numerator only. -/
theorem claim2_theorem (h : Hop) (hne : h.result ≠ []) :
    hopMeanRtt h = some ((h.result.filterMap Pkt.rtt).sum / (h.result.length : ℚ)) := by
  have hlen : h.result.length ≠ 0 := by simpa [List.length_eq_zero] using hne
  rw [hopMeanRtt, if_neg hlen, sumRtt_eq]

/-- C2, witness: the amended statement applied to the two-packet hop. -/
theorem claim2_witness :
    hopMeanRtt (Hop.mk none 1 [Pkt.mk (some 10) none, Pkt.mk none none]) =
      some ((([Pkt.mk (some 10) none, Pkt.mk none none]).filterMap Pkt.rtt).sum /
        (([Pkt.mk (some 10) none, Pkt.mk none none] : List Pkt).length : ℚ)) :=
  claim2_theorem (Hop.mk none 1 [Pkt.mk (some 10) none, Pkt.mk none none]) (by simp)

/-- C5, counterexample: a hop with an empty packet-attempt list makes the
mean computation fail (the Python `ZeroDivisionError`, modelled as `none`)
— there is no division-by-zero guard and the computation is not total. -/
theorem claim5_counterexample :
    hopMeanRtt (Hop.mk none 1 []) = none ∧
    process_result [Hop.mk none 1 []] = none := by
  constructor
  · simp [hopMeanRtt]
  · simp +decide [process_result, process_result_loop, hopMeanRtt]

/-- C5, amended: a hop with at least one packet attempt but no RTT values
yields mean 0 because the numerator is 0 over a positive count (no guard is
involved); a hop with an empty packet list makes the division fail. -/
theorem claim5_theorem :
    (∀ h : Hop, h.result ≠ [] → (∀ p ∈ h.result, p.rtt = none) → hopMeanRtt h = some 0) ∧
    (∀ h : Hop, h.result = [] → hopMeanRtt h = none) := by
  constructor
  · intro h hne hall
    have hlen : h.result.length ≠ 0 := by simpa [List.length_eq_zero] using hne
    have hmap : h.result.filterMap Pkt.rtt = [] := by
      rw [List.filterMap_eq_nil_iff]
      intro p hp
      rw [hall p hp]
    rw [hopMeanRtt, if_neg hlen, sumRtt_eq, hmap]
    simp
  · intro h he
    simp [hopMeanRtt, he]

/-- C5, witness: both parts of the amended statement at concrete hops. -/
theorem claim5_witness :
    hopMeanRtt (Hop.mk none 1 [Pkt.mk none none]) = some 0 ∧
    hopMeanRtt (Hop.mk none 2 []) = none :=
  ⟨claim5_theorem.1 (Hop.mk none 1 [Pkt.mk none none]) (by simp) (by simp),
   claim5_theorem.2 (Hop.mk none 2 []) rfl⟩

/-- C6, counterexample: a hop list that contains an error-tagged hop (the
second hop) but on which `process_result` does not return the error
sentinel triple: the first hop's empty packet list makes the division fail
before the error hop is reached. -/
theorem claim6_counterexample :
    ([Hop.mk none 1 [], Hop.mk (some "boom") 2 []].any (fun h => h.error.isSome)) = true ∧
    process_result [Hop.mk none 1 [], Hop.mk (some "boom") 2 []] = none := by
  constructor
  · simp
  · simp +decide [process_result, process_result_loop, hopMeanRtt]

/-- C6, amended: when every hop before the first error-tagged hop is
error-free and has at least one packet attempt, `process_result` returns at
that hop with the identical error text in all three fields, whatever its
position and whatever follows it — later hops are never examined. -/
theorem claim6_theorem (pre post : List Hop) (h : Hop) (msg : String)
    (hpre : ∀ x ∈ pre, x.error = none ∧ x.result ≠ [])
    (hmsg : h.error = some msg) :
    process_result (pre ++ h :: post) =
      some (.str ("Error: " ++ msg), .str ("Error: " ++ msg), .str ("Error: " ++ msg)) :=
  loop_error pre (pre ++ h :: post).length post h msg 0 0 0 0 hpre hmsg

/-- C6, witness: the amended statement with the error hop in the middle. -/
theorem claim6_witness :
    process_result [Hop.mk none 1 [Pkt.mk (some 10) none], Hop.mk (some "boom") 2 [],
        Hop.mk none 3 [Pkt.mk (some 20) none]] =
      some (.str "Error: boom", .str "Error: boom", .str "Error: boom") :=
  claim6_theorem [Hop.mk none 1 [Pkt.mk (some 10) none]]
    [Hop.mk none 3 [Pkt.mk (some 20) none]] (Hop.mk (some "boom") 2 []) "boom"
    (by simp) rfl

/-- C10: there is a hop list in which a hop's first packet does report the
relay-gateway address, yet `process_result` still returns the
"gateway not in path" sentinel: the relay hop's mean RTT equals the
preceding hop's mean RTT, so `bent_pipe` is exactly 0 and the after-loop
check cannot tell this apart from "gateway never matched". -/
theorem claim10_theorem :
    ∃ hops : List Hop,
      (∃ h ∈ hops, firstFrom h = some STARLINK_GATEWAY) ∧
      process_result hops =
        some (.num 10, .str "Startlink gateway not in the path", .num 0) := by
  refine ⟨[Hop.mk none 1 [Pkt.mk (some 10) (some "9.9.9.9")],
           Hop.mk none 2 [Pkt.mk (some 10) (some "100.64.0.1")]], ?_, ?_⟩
  · exact ⟨Hop.mk none 2 [Pkt.mk (some 10) (some "100.64.0.1")], by simp,
      by simp [firstFrom, STARLINK_GATEWAY]⟩
  · simp +decide only [process_result, process_result_loop, hopMeanRtt, sumRtt, firstFrom,
      STARLINK_GATEWAY, List.foldl, List.length, List.head?, Option.bind]
    norm_num

/-! ### Helper lemmas for `probe_connection_analysis` -/

/-- In a `since`-sorted list the head's `since` bounds every element. -/
theorem pairwise_since_head (r : HistRow) (l : List HistRow)
    (h : List.Pairwise sinceLe (r :: l)) : ∀ x ∈ r :: l, r.since ≤ x.since := by
  intro x hx
  rcases List.mem_cons.mp hx with hx | hx
  · rw [hx]
  · exact (List.pairwise_cons.mp h).1 x hx

/-- Derived intervals either run forward or end at the window fill value. -/
theorem withUntil_since_le (e : Int) (l : List HistRow)
    (hpw : List.Pairwise sinceLe l) :
    ∀ p ∈ withUntil e l, p.1.since ≤ p.2 ∨ p.2 = e := by
  induction l with
  | nil => intro p hp; simp [withUntil] at hp
  | cons r rest ih =>
    intro p hp
    cases rest with
    | nil =>
      rw [withUntil, List.mem_singleton] at hp
      right; rw [hp]
    | cons r2 rest' =>
      rw [withUntil] at hp
      rcases List.mem_cons.mp hp with hp | hp
      · left
        rw [hp]
        exact (List.pairwise_cons.mp hpw).1 r2 (List.mem_cons_self r2 rest')
      · exact ih (List.pairwise_cons.mp hpw).2 p hp

/-- Every interval that survives the window filter has a nonnegative
clipped duration. -/
theorem kept_clip_nonneg (s e : Int) (hse : s < e) (l : List HistRow)
    (hpw : List.Pairwise sinceLe l) :
    ∀ p ∈ keptRows s e (withUntil e l), 0 ≤ min p.2 e - max p.1.since s := by
  intro p hp
  obtain ⟨hmem, hcond⟩ := List.mem_filter.mp hp
  have hc : p.1.since < e ∧ s < p.2 := by simpa using hcond
  rcases withUntil_since_le e l hpw p hmem with h | h <;> omega

/-- The total clipped duration of the kept intervals of a sorted timeline
is at most the window length past the lower bound `b` of all `since`
values. -/
theorem kcDurSum_le (s e : Int) (hse : s < e) :
    ∀ (l : List HistRow) (b : Int), List.Pairwise sinceLe l →
      (∀ r ∈ l, b ≤ r.since) →
      ((keptRows s e (withUntil e l)).map (fun p => min p.2 e - max p.1.since s)).sum ≤
        max 0 (e - max s b) := by
  intro l
  induction l with
  | nil =>
    intro b _ _
    simp [withUntil, keptRows]
  | cons r rest ih =>
    intro b hpw hb
    have hbr : b ≤ r.since := hb r (List.mem_cons_self r rest)
    have hpw' : List.Pairwise sinceLe rest := (List.pairwise_cons.mp hpw).2
    cases rest with
    | nil =>
      rw [withUntil]
      simp only [keptRows, List.filter_cons, List.filter_nil]
      by_cases hk : (decide (r.since < e) && decide (s < e)) = true
      · simp only [if_pos hk, List.map_cons, List.map_nil, List.sum_cons, List.sum_nil]
        have hc : r.since < e ∧ s < e := by simpa using hk
        omega
      · simp only [if_neg hk, List.map_nil, List.sum_nil]
        omega
    | cons r2 rest' =>
      have hr2 : r.since ≤ r2.since :=
        (List.pairwise_cons.mp hpw).1 r2 (List.mem_cons_self r2 rest')
      have hrest : ∀ x ∈ r2 :: rest', r2.since ≤ x.since := pairwise_since_head r2 rest' hpw'
      have ihS := ih r2.since hpw' hrest
      rw [withUntil]
      simp only [keptRows, List.filter_cons] at ihS ⊢
      by_cases hk : (decide (r.since < e) && decide (s < r2.since)) = true
      · simp only [if_pos hk, List.map_cons, List.sum_cons]
        have hc : r.since < e ∧ s < r2.since := by simpa using hk
        omega
      · simp only [if_neg hk]
        omega

/-- Bounds for the accumulation loop: each component grows monotonically
and the total growth is the total duration. -/
theorem tallyTimes_bounds :
    ∀ (cl : List ClipRow) (st ot dc : Int),
      (∀ c ∈ cl, 0 ≤ c.untilT - c.since) →
      st ≤ (tallyTimes cl (st, ot, dc)).1 ∧
      ot ≤ (tallyTimes cl (st, ot, dc)).2.1 ∧
      dc ≤ (tallyTimes cl (st, ot, dc)).2.2 ∧
      (tallyTimes cl (st, ot, dc)).1 + (tallyTimes cl (st, ot, dc)).2.1 +
          (tallyTimes cl (st, ot, dc)).2.2 ≤
        st + ot + dc + ((cl.map (fun c => c.untilT - c.since)).sum) := by
  intro cl
  induction cl with
  | nil => intro st ot dc _; simp [tallyTimes]
  | cons c rest ih =>
    intro st ot dc hnn
    have hc : 0 ≤ c.untilT - c.since := hnn c (List.mem_cons_self c rest)
    have hnn' : ∀ x ∈ rest, 0 ≤ x.untilT - x.since :=
      fun x hx => hnn x (List.mem_cons_of_mem c hx)
    by_cases h1 : c.status = "Connected"
    · by_cases h2 : c.asn = some STARLINK_ASN
      · have := ih (st + (c.untilT - c.since)) ot dc hnn'
        simp only [tallyTimes, if_pos h1, if_pos h2, List.map_cons, List.sum_cons] at *
        omega
      · have := ih st (ot + (c.untilT - c.since)) dc hnn'
        simp only [tallyTimes, if_pos h1, if_neg h2, List.map_cons, List.sum_cons] at *
        omega
    · by_cases h3 : c.status = "Disconnected"
      · have := ih st ot (dc + (c.untilT - c.since)) hnn'
        simp only [tallyTimes, if_neg h1, if_pos h3, List.map_cons, List.sum_cons] at *
        omega
      · have := ih st ot dc hnn'
        simp only [tallyTimes, if_neg h1, if_neg h3, List.map_cons, List.sum_cons] at *
        omega

/-- The three per-probe accumulated times are nonnegative and sum to at
most the window length. -/
theorem probe_shares_bounds (s e : Int) (hse : s < e) (rows : List HistRow) :
    0 ≤ (probe_shares s e rows).1 ∧
    0 ≤ (probe_shares s e rows).2.1 ∧
    0 ≤ (probe_shares s e rows).2.2 ∧
    (probe_shares s e rows).1 + (probe_shares s e rows).2.1 +
      (probe_shares s e rows).2.2 ≤ e - s := by
  have hpw : List.Pairwise sinceLe (sortBySince rows) :=
    List.sorted_insertionSort sinceLe rows
  have hnn : ∀ c ∈ clipRows s e (keptRows s e (withUntil e (sortBySince rows))),
      0 ≤ c.untilT - c.since := by
    intro c hcm
    obtain ⟨p, hpm, hpc⟩ := List.mem_map.mp hcm
    rw [← hpc]
    exact kept_clip_nonneg s e hse (sortBySince rows) hpw p hpm
  have hmap : ((clipRows s e (keptRows s e (withUntil e (sortBySince rows)))).map
      (fun c => c.untilT - c.since)).sum =
      ((keptRows s e (withUntil e (sortBySince rows))).map
        (fun p => min p.2 e - max p.1.since s)).sum := by
    rw [clipRows, List.map_map]
    rfl
  have hsum : ((keptRows s e (withUntil e (sortBySince rows))).map
      (fun p => min p.2 e - max p.1.since s)).sum ≤ e - s := by
    cases hl : sortBySince rows with
    | nil => simp [hl, withUntil, keptRows]; omega
    | cons r rest =>
      have hpw' : List.Pairwise sinceLe (r :: rest) := hl ▸ hpw
      have hb := pairwise_since_head r rest hpw'
      have := kcDurSum_le s e hse (r :: rest) r.since hpw' hb
      omega
  have := tallyTimes_bounds
    (clipRows s e (keptRows s e (withUntil e (sortBySince rows)))) 0 0 0 hnn
  rw [probe_shares]
  omega

/-! ### Claims about `probe_connection_analysis` (connection shares) -/

/-- C3, counterexample: one Connected entry whose network id is absent
(`asn = none`) is counted in the "other" bucket — the other fraction is 1,
not 0, so the entry is not left out of both buckets. -/
theorem claim3_counterexample :
    probe_connection_analysis [HistRow.mk 7 none "Connected" 0] 0 100 = [(7, 0, 1, 0)] ∧
    ((7 : Int), (0 : ℚ), (1 : ℚ), (0 : ℚ)).2.2.1 ≠ 0 := by
  constructor
  · simp +decide [probe_connection_analysis, probe_shares, uniqueKeys, uniqueKeysAux,
      sortBySince, List.insertionSort, List.orderedInsert, withUntil, keptRows, clipRows,
      tallyTimes, STARLINK_ASN]
  · norm_num

/-- C3, amended: in the accumulation of `probe_connection_analysis`, a
Connected entry adds its clipped duration to the relay bucket when its
network id equals the relay network id, and to the "other" bucket in every
other case — including an absent network id; a Disconnected entry adds to
the disconnected bucket. -/
theorem claim3_theorem (a : Option Int) (pid : Int) :
    (a ≠ some STARLINK_ASN →
      probe_connection_analysis [HistRow.mk pid a "Connected" 0] 0 100 = [(pid, 0, 1, 0)]) ∧
    probe_connection_analysis [HistRow.mk pid (some STARLINK_ASN) "Connected" 0] 0 100 =
      [(pid, 1, 0, 0)] ∧
    probe_connection_analysis [HistRow.mk pid a "Disconnected" 0] 0 100 = [(pid, 0, 0, 1)] := by
  refine ⟨fun ha => ?_, ?_, ?_⟩
  · simp +decide [probe_connection_analysis, probe_shares, uniqueKeys, uniqueKeysAux,
      sortBySince, List.insertionSort, List.orderedInsert, withUntil, keptRows, clipRows,
      tallyTimes, ha]
    try norm_num
  · simp +decide [probe_connection_analysis, probe_shares, uniqueKeys, uniqueKeysAux,
      sortBySince, List.insertionSort, List.orderedInsert, withUntil, keptRows, clipRows,
      tallyTimes]
    try norm_num
  · simp +decide [probe_connection_analysis, probe_shares, uniqueKeys, uniqueKeysAux,
      sortBySince, List.insertionSort, List.orderedInsert, withUntil, keptRows, clipRows,
      tallyTimes]
    try norm_num

/-- C3, witness: the amended statement applied with an absent network id
(probe 7), plus the relay and disconnected cases. -/
theorem claim3_witness :
    probe_connection_analysis [HistRow.mk 7 none "Connected" 0] 0 100 = [(7, 0, 1, 0)] ∧
    probe_connection_analysis [HistRow.mk 7 (some STARLINK_ASN) "Connected" 0] 0 100 =
      [(7, 1, 0, 0)] ∧
    probe_connection_analysis [HistRow.mk 7 none "Disconnected" 0] 0 100 = [(7, 0, 0, 1)] :=
  ⟨(claim3_theorem none 7).1 (by simp), (claim3_theorem none 7).2.1, (claim3_theorem none 7).2.2⟩

/-- C8: an interval survives the window filter exactly when
`since < window_end` and `until > window_start`; clipped intervals lie
inside the window (never extrapolated); and the two-entry single-probe
example over window `[0, 100)` yields relay 1/2, other 0, disconnected
1/2. -/
theorem claim8_theorem :
    (∀ (s e : Int) (l : List (HistRow × Int)) (p : HistRow × Int),
        p ∈ keptRows s e l ↔ p ∈ l ∧ p.1.since < e ∧ s < p.2) ∧
    (∀ (s e : Int) (l : List (HistRow × Int)) (c : ClipRow),
        c ∈ clipRows s e l → s ≤ c.since ∧ c.untilT ≤ e) ∧
    probe_connection_analysis
        [HistRow.mk 7 (some 14593) "Connected" 0, HistRow.mk 7 none "Disconnected" 50] 0 100 =
      [(7, 1/2, 0, 1/2)] := by
  refine ⟨?_, ?_, ?_⟩
  · intro s e l p
    simp [keptRows, List.mem_filter, and_assoc]
  · intro s e l c hc
    obtain ⟨p, _, hpc⟩ := List.mem_map.mp hc
    rw [← hpc]
    exact ⟨le_max_right p.1.since s, min_le_right p.2 e⟩
  · simp +decide [probe_connection_analysis, probe_shares, uniqueKeys, uniqueKeysAux,
      sortBySince, List.insertionSort, List.orderedInsert, withUntil, keptRows, clipRows,
      tallyTimes, STARLINK_ASN]
    norm_num

/-- C8, witness: the filter characterization and the clip bounds applied to
the first interval of the concrete example. -/
theorem claim8_witness :
    ((HistRow.mk 7 (some 14593) "Connected" 0, (50 : Int)) ∈
      keptRows 0 100 [(HistRow.mk 7 (some 14593) "Connected" 0, (50 : Int))]) ∧
    ((0 : Int) ≤ 0 ∧ (50 : Int) ≤ 100) :=
  ⟨(claim8_theorem.1 0 100 _ _).mpr ⟨by simp, by norm_num, by norm_num⟩,
   claim8_theorem.2.1 0 100 [(HistRow.mk 7 (some 14593) "Connected" 0, (50 : Int))]
     (ClipRow.mk (some 14593) "Connected" 0 50)
     (by simp [clipRows])⟩

/-- C9: for every probe history and window with `start < end`, each of the
three fractions produced by `probe_connection_analysis` is nonnegative and
the three sum to at most 1. -/
theorem claim9_theorem (rows : List HistRow) (s e : Int) (hse : s < e) :
    ∀ entry ∈ probe_connection_analysis rows s e,
      0 ≤ entry.2.1 ∧ 0 ≤ entry.2.2.1 ∧ 0 ≤ entry.2.2.2 ∧
        entry.2.1 + entry.2.2.1 + entry.2.2.2 ≤ 1 := by
  intro entry hmem
  rw [probe_connection_analysis, List.mem_map] at hmem
  obtain ⟨pid, _hpid, rfl⟩ := hmem
  obtain ⟨h1, h2, h3, h4⟩ := probe_shares_bounds s e hse
    (rows.filter (fun r => decide (r.probe_id = pid)))
  dsimp only
  have hN : (0 : ℚ) < (e : ℚ) - (s : ℚ) := by
    have : ((s : ℚ)) < (e : ℚ) := by exact_mod_cast hse
    linarith
  set t := probe_shares s e (rows.filter (fun r => decide (r.probe_id = pid))) with ht
  refine ⟨div_nonneg (by exact_mod_cast h1) hN.le,
          div_nonneg (by exact_mod_cast h2) hN.le,
          div_nonneg (by exact_mod_cast h3) hN.le, ?_⟩
  rw [div_add_div_same, div_add_div_same, div_le_one hN]
  have : ((t.1 + t.2.1 + t.2.2 : Int) : ℚ) ≤ ((e - s : Int) : ℚ) := Int.cast_le.mpr h4
  push_cast at this
  linarith

/-- C9, witness: the bounds applied to a one-entry history over the window
`[0, 100)`, whose connection share row is `(7, 1, 0, 0)`. -/
theorem claim9_witness :
    0 ≤ ((7 : Int), (1 : ℚ), (0 : ℚ), (0 : ℚ)).2.1 ∧
    0 ≤ ((7 : Int), (1 : ℚ), (0 : ℚ), (0 : ℚ)).2.2.1 ∧
    0 ≤ ((7 : Int), (1 : ℚ), (0 : ℚ), (0 : ℚ)).2.2.2 ∧
    ((7 : Int), (1 : ℚ), (0 : ℚ), (0 : ℚ)).2.1 + ((7 : Int), (1 : ℚ), (0 : ℚ), (0 : ℚ)).2.2.1 +
      ((7 : Int), (1 : ℚ), (0 : ℚ), (0 : ℚ)).2.2.2 ≤ 1 := by
  have heval : probe_connection_analysis [HistRow.mk 7 (some 14593) "Connected" 0] 0 100 =
      [(7, 1, 0, 0)] := by
    simp +decide [probe_connection_analysis, probe_shares, uniqueKeys, uniqueKeysAux,
      sortBySince, List.insertionSort, List.orderedInsert, withUntil, keptRows, clipRows,
      tallyTimes, STARLINK_ASN]
    try norm_num
  exact claim9_theorem [HistRow.mk 7 (some 14593) "Connected" 0] 0 100 (by norm_num)
    (7, 1, 0, 0) (by rw [heval]; exact List.mem_singleton.mpr rfl)

/-! ### Helper lemmas for `json_data_extraction` -/

/-- Reflexivity of the cell order. -/
theorem jle_refl (a : JVal) : jle a a := by
  cases a <;> simp [jle]

/-- Totality of the cell order. -/
theorem jle_total (a b : JVal) : jle a b ∨ jle b a := by
  cases a <;> cases b <;> simp [jle] <;> exact le_total _ _

/-- Transitivity of the cell order. -/
theorem jle_trans (a b c : JVal) (h1 : jle a b) (h2 : jle b c) : jle a c := by
  cases a <;> cases b <;> cases c <;> simp [jle] at * <;> exact le_trans h1 h2

/-- Reflexivity of the optional-key order. -/
theorem optJle_refl (a : Option JVal) : optJle a a := by
  cases a <;> simp [optJle, jle_refl]

/-- Totality of the optional-key order. -/
theorem optJle_total (a b : Option JVal) : optJle a b ∨ optJle b a := by
  cases a <;> cases b <;> simp [optJle] <;> exact jle_total _ _

/-- Transitivity of the optional-key order. -/
theorem optJle_trans (a b c : Option JVal) (h1 : optJle a b) (h2 : optJle b c) :
    optJle a c := by
  cases a <;> cases b <;> cases c <;> simp [optJle] at * <;> exact jle_trans _ _ _ h1 h2

instance : IsTotal (Nat × List JVal) rowLe := ⟨fun a b => optJle_total _ _⟩

instance : IsTrans (Nat × List JVal) rowLe := ⟨fun _ _ _ h1 h2 => optJle_trans _ _ _ h1 h2⟩

/-- A member of an enumerated list has its payload in the base list. -/
theorem snd_mem_of_mem_enum {α : Type} {x : Nat × α} {l : List α} (h : x ∈ l.enum) :
    x.2 ∈ l := by
  have := List.mem_map_of_mem Prod.snd h
  rwa [List.enum_map_snd] at this

/-- A member of an `enumFrom` list has its payload in the base list. -/
theorem snd_mem_of_mem_enumFrom {α : Type} {x : Nat × α} {n : Nat} {l : List α}
    (h : x ∈ l.enumFrom n) : x.2 ∈ l := by
  have := List.mem_map_of_mem Prod.snd h
  rwa [List.enumFrom_map_snd] at this

/-- Enumerating preserves pairwise relations that only look at payloads. -/
theorem pairwise_enumFrom {α : Type} {R : α → α → Prop} :
    ∀ (l : List α) (n : Nat), List.Pairwise R l →
      List.Pairwise (fun a b : Nat × α => R a.2 b.2) (l.enumFrom n) := by
  intro l
  induction l with
  | nil => intro n _; simp
  | cons x xs ih =>
    intro n hp
    rw [List.pairwise_cons] at hp
    rw [List.enumFrom, List.pairwise_cons]
    exact ⟨fun y hy => hp.1 y.2 (snd_mem_of_mem_enumFrom hy), ih (n + 1) hp.2⟩

/-- Step of the line loop: a matching footer is skipped and adds no row. -/
theorem extractLoop_cons_count_ok (fields : List FieldPath)
    (maps : List (String × (JVal → JVal))) (r : JVal) (rest : List JVal)
    (acc : List (List JVal)) (hc : hasCount r = true) (hm : countEq r acc.length = true) :
    extractLoop fields maps (r :: rest) acc = extractLoop fields maps rest acc := by
  rw [extractLoop, if_pos hc, if_pos hm]

/-- Step of the line loop: a mismatching footer aborts the extraction. -/
theorem extractLoop_cons_count_bad (fields : List FieldPath)
    (maps : List (String × (JVal → JVal))) (r : JVal) (rest : List JVal)
    (acc : List (List JVal)) (hc : hasCount r = true) (hm : countEq r acc.length = false) :
    extractLoop fields maps (r :: rest) acc = .error .dataIntegrity := by
  rw [extractLoop, if_pos hc, if_neg (by simp [hm])]

/-- Step of the line loop: a data record appends its row. -/
theorem extractLoop_cons_row (fields : List FieldPath)
    (maps : List (String × (JVal → JVal))) (r : JVal) (rest : List JVal)
    (acc : List (List JVal)) (row : List JVal) (hc : hasCount r = false)
    (hb : buildRow maps r fields = some row) :
    extractLoop fields maps (r :: rest) acc = extractLoop fields maps rest (acc ++ [row]) := by
  rw [extractLoop, if_neg (by simp [hc]), hb]

/-- Step of the line loop: a missing key aborts the extraction. -/
theorem extractLoop_cons_keyfail (fields : List FieldPath)
    (maps : List (String × (JVal → JVal))) (r : JVal) (rest : List JVal)
    (acc : List (List JVal)) (hc : hasCount r = false)
    (hb : buildRow maps r fields = none) :
    extractLoop fields maps (r :: rest) acc = .error .keyNotFound := by
  rw [extractLoop, if_neg (by simp [hc]), hb]

/-- The line loop aborts with the count-mismatch error exactly when some
record carrying a `count` field is reached with an accumulator whose length
differs from the declared count. -/
theorem extractLoop_dataIntegrity_iff (fields : List FieldPath)
    (maps : List (String × (JVal → JVal))) :
    ∀ (lines : List JVal) (acc : List (List JVal)),
      extractLoop fields maps lines acc = .error .dataIntegrity ↔
      ∃ pre rec post acc2, lines = pre ++ rec :: post ∧
        extractLoop fields maps pre acc = .ok acc2 ∧
        hasCount rec = true ∧ countEq rec acc2.length = false := by
  intro lines
  induction lines with
  | nil =>
    intro acc
    constructor
    · intro h; simp [extractLoop] at h
    · rintro ⟨pre, rec, post, acc2, habs, -, -, -⟩
      exact absurd habs (by simp)
  | cons r rest ih =>
    intro acc
    by_cases hc : hasCount r = true
    · by_cases hm : countEq r acc.length = true
      · rw [extractLoop_cons_count_ok fields maps r rest acc hc hm]
        constructor
        · intro h
          obtain ⟨pre, rec, post, acc2, h1, h2, h3, h4⟩ := (ih acc).mp h
          exact ⟨r :: pre, rec, post, acc2, by rw [h1, List.cons_append],
            by rw [extractLoop_cons_count_ok fields maps r pre acc hc hm]; exact h2, h3, h4⟩
        · rintro ⟨pre, rec, post, acc2, h1, h2, h3, h4⟩
          cases pre with
          | nil =>
            rw [List.nil_append] at h1
            injection h1 with h1a h1b
            subst h1a
            have hacc : acc2 = acc := by
              rw [show extractLoop fields maps [] acc = .ok acc from rfl] at h2
              exact (Except.ok.injEq .. ▸ h2).symm
            rw [hacc] at h4
            rw [hm] at h4
            exact absurd h4 (by simp)
          | cons p pre' =>
            rw [List.cons_append] at h1
            injection h1 with h1a h1b
            subst h1a
            rw [extractLoop_cons_count_ok fields maps r pre' acc hc hm] at h2
            exact (ih acc).mpr ⟨pre', rec, post, acc2, h1b, h2, h3, h4⟩
      · have hm' : countEq r acc.length = false := by simpa using hm
        rw [extractLoop_cons_count_bad fields maps r rest acc hc hm']
        constructor
        · intro _
          exact ⟨[], r, rest, acc, by rw [List.nil_append], rfl, hc, hm'⟩
        · intro _; rfl
    · have hc' : hasCount r = false := by simpa using hc
      cases hb : buildRow maps r fields with
      | none =>
        rw [extractLoop_cons_keyfail fields maps r rest acc hc' hb]
        constructor
        · intro h; exact absurd h (by simp)
        · rintro ⟨pre, rec, post, acc2, h1, h2, h3, h4⟩
          cases pre with
          | nil =>
            rw [List.nil_append] at h1
            injection h1 with h1a h1b
            subst h1a
            rw [hc'] at h3
            exact absurd h3 (by simp)
          | cons p pre' =>
            rw [List.cons_append] at h1
            injection h1 with h1a h1b
            subst h1a
            rw [extractLoop_cons_keyfail fields maps r pre' acc hc' hb] at h2
            exact absurd h2 (by simp)
      | some row =>
        rw [extractLoop_cons_row fields maps r rest acc row hc' hb]
        constructor
        · intro h
          obtain ⟨pre, rec, post, acc2, h1, h2, h3, h4⟩ := (ih (acc ++ [row])).mp h
          exact ⟨r :: pre, rec, post, acc2, by rw [h1, List.cons_append],
            by rw [extractLoop_cons_row fields maps r pre acc row hc' hb]; exact h2, h3, h4⟩
        · rintro ⟨pre, rec, post, acc2, h1, h2, h3, h4⟩
          cases pre with
          | nil =>
            rw [List.nil_append] at h1
            injection h1 with h1a h1b
            subst h1a
            rw [hc'] at h3
            exact absurd h3 (by simp)
          | cons p pre' =>
            rw [List.cons_append] at h1
            injection h1 with h1a h1b
            subst h1a
            rw [extractLoop_cons_row fields maps r pre' acc row hc' hb] at h2
            exact (ih (acc ++ [row])).mpr ⟨pre', rec, post, acc2, h1b, h2, h3, h4⟩

/-! ### Claims about `json_data_extraction` (extract) -/

/-- C7: the extraction fails with the count-mismatch (`DataIntegrityError`)
exactly when some record carrying a top-level `count` field declares a
count different from the number of rows parsed before it; a footer whose
count agrees is skipped without error and contributes no row. -/
theorem claim7_theorem (columns : List String) (fields : List FieldPath)
    (maps : List (String × (JVal → JVal))) (lines : List JVal) :
    (json_data_extraction lines columns fields maps = .error .dataIntegrity ↔
      ∃ pre rec post acc, lines = pre ++ rec :: post ∧
        extractLoop fields maps pre [] = .ok acc ∧
        hasCount rec = true ∧ countEq rec acc.length = false) ∧
    (∀ (rec : JVal) (rest : List JVal) (acc : List (List JVal)),
        hasCount rec = true → countEq rec acc.length = true →
        extractLoop fields maps (rec :: rest) acc = extractLoop fields maps rest acc) := by
  refine ⟨⟨fun h => (extractLoop_dataIntegrity_iff fields maps lines []).mp ?_, fun hex => ?_⟩,
    fun rec rest acc hc hm => extractLoop_cons_count_ok fields maps rec rest acc hc hm⟩
  · rw [json_data_extraction] at h
    cases hE : extractLoop fields maps lines [] with
    | error e =>
      rw [hE] at h
      cases e with
      | dataIntegrity => rfl
      | keyNotFound => simp at h
      | valueError => simp at h
      | indexError => simp at h
    | ok data =>
      rw [hE] at h
      exfalso
      dsimp only at h
      split_ifs at h <;> simp_all
  · have hl := (extractLoop_dataIntegrity_iff fields maps lines []).mpr hex
    rw [json_data_extraction, hl]

/-- C7, witness: a matching footer is skipped without a row, and a
mismatching footer (declared count 5 against one parsed row) raises the
count-mismatch error. -/
theorem claim7_witness :
    extractLoop [FieldPath.name "x"] []
        [JVal.obj [("count", JVal.num 0)], JVal.obj [("x", JVal.num 1)]] [] =
      extractLoop [FieldPath.name "x"] [] [JVal.obj [("x", JVal.num 1)]] [] ∧
    json_data_extraction [JVal.obj [("x", JVal.num 1)], JVal.obj [("count", JVal.num 5)]]
        ["x"] [FieldPath.name "x"] [] = .error .dataIntegrity :=
  ⟨( claim7_theorem ["x"] [FieldPath.name "x"] [] []).2 (JVal.obj [("count", JVal.num 0)])
      [JVal.obj [("x", JVal.num 1)]] [] rfl rfl,
   ( claim7_theorem ["x"] [FieldPath.name "x"] []
        [JVal.obj [("x", JVal.num 1)], JVal.obj [("count", JVal.num 5)]]).1.mpr
      ⟨[JVal.obj [("x", JVal.num 1)]], JVal.obj [("count", JVal.num 5)], [], [[JVal.num 1]],
        rfl, rfl, rfl, rfl⟩⟩

/-- C4, counterexample: pandas' default `kind='quicksort'` promises only an
ordering by the sort key (`sort_values_contract`), not a stable tie-break.
For the two equal-key input rows `[1, "A"]` (index 0) and `[1, "B"]`
(index 1), the swapped table satisfies the contract of the code's sort,
yet the earlier row follows the later one — preservation of input order
among equal first-column values does not follow from the code. -/
theorem claim4_counterexample :
    sort_values_contract
      (mkDFrame [[JVal.num 1, JVal.str "A"], [JVal.num 1, JVal.str "B"]] ["k", "v"])
      ⟨["k", "v"], [(1, [JVal.num 1, JVal.str "B"]), (0, [JVal.num 1, JVal.str "A"])]⟩ ∧
    ¬ List.Pairwise (fun a b : Nat × List JVal => rowKey a.2 = rowKey b.2 → a.1 < b.1)
        [(1, [JVal.num 1, JVal.str "B"]), (0, [JVal.num 1, JVal.str "A"])] := by
  constructor
  · refine ⟨rfl, ?_, ?_⟩
    · show List.Perm _ [(0, [JVal.num 1, JVal.str "A"]), (1, [JVal.num 1, JVal.str "B"])]
      exact List.Perm.swap _ _ _
    · decide
  · intro h
    have h2 := (List.pairwise_cons.mp h).1 (0, [JVal.num 1, JVal.str "A"])
      (List.mem_singleton.mpr rfl) rfl
    exact absurd h2 (by decide)

/-- C4, amended: a successful extraction yields a table whose column count
equals the configured column count, whose rows all have that width, whose
rows are sorted by the first column's value, and whose row index is
renumbered `0, 1, 2, ...`; the sort stage satisfies the
`sort_values_contract` of the code's sort call, which fixes the ordering
but not the relative order of rows with equal first-column values. -/
theorem claim4_theorem (lines : List JVal) (columns : List String)
    (fields : List FieldPath) (maps : List (String × (JVal → JVal))) (df : DFrame)
    (h : json_data_extraction lines columns fields maps = .ok df) :
    df.cols.length = columns.length ∧
    (∀ r ∈ df.rows, r.2.length = columns.length) ∧
    List.Pairwise rowLe df.rows ∧
    (∀ data : List (List JVal), extractLoop fields maps lines [] = .ok data →
        sort_values_contract (mkDFrame data columns) (sort_values (mkDFrame data columns))) ∧
    df.rows.map Prod.fst = List.range df.rows.length := by
  rw [json_data_extraction] at h
  cases hE : extractLoop fields maps lines [] with
  | error e => rw [hE] at h; simp at h
  | ok data =>
    rw [hE] at h
    dsimp only at h
    by_cases hany : data.any (fun r => decide (r.length ≠ columns.length)) = true
    · rw [if_pos hany] at h; simp at h
    · rw [if_neg hany] at h
      by_cases hemp : columns.isEmpty = true
      · rw [if_pos hemp] at h; simp at h
      · rw [if_neg hemp] at h
        have hdf : reset_index (sort_values (mkDFrame data columns)) = df := by
          simpa using h
        subst hdf
        have hlen : ∀ r ∈ data, r.length = columns.length := by
          intro r hr
          by_contra hne
          exact hany (List.any_eq_true.mpr ⟨r, hr, by simpa using hne⟩)
        have hs : List.Pairwise rowLe (List.insertionSort rowLe data.enum) :=
          List.sorted_insertionSort rowLe data.enum
        refine ⟨rfl, ?_, ?_, ?_, ?_⟩
        · intro r hr
          have h1 : r.2 ∈ (List.insertionSort rowLe data.enum).map Prod.snd :=
            snd_mem_of_mem_enum hr
          obtain ⟨y, hy, hyr⟩ := List.mem_map.mp h1
          have h2 : y ∈ data.enum := (List.mem_insertionSort rowLe).mp hy
          have h3 : y.2 ∈ data := snd_mem_of_mem_enum h2
          rw [← hyr]
          exact hlen y.2 h3
        · have h2 : List.Pairwise (fun r r' : List JVal => optJle (rowKey r) (rowKey r'))
              ((List.insertionSort rowLe data.enum).map Prod.snd) := by
            rw [List.pairwise_map]
            exact hs
          have h4 : List.Pairwise (fun a b : Nat × List JVal => optJle (rowKey a.2) (rowKey b.2))
              (((List.insertionSort rowLe data.enum).map Prod.snd).enum) :=
            pairwise_enumFrom _ 0 h2
          exact h4
        · intro data' hE'
          have hdd : data = data' := by simpa using hE'
          subst hdd
          exact ⟨rfl, List.perm_insertionSort rowLe data.enum, hs⟩
        · show (((List.insertionSort rowLe data.enum).map Prod.snd).enum).map Prod.fst =
            List.range ((((List.insertionSort rowLe data.enum).map Prod.snd).enum)).length
          rw [List.enum_map_fst, List.enum_length]

/-- C4, witness: the amended conclusions at a concrete two-line input whose
rows come out sorted by the first column and re-indexed from zero. -/
theorem claim4_witness :
    (⟨["a"], [(0, [JVal.num 1]), (1, [JVal.num 2])]⟩ : DFrame).cols.length = ["a"].length ∧
    (∀ r ∈ (⟨["a"], [(0, [JVal.num 1]), (1, [JVal.num 2])]⟩ : DFrame).rows,
        r.2.length = ["a"].length) ∧
    List.Pairwise rowLe (⟨["a"], [(0, [JVal.num 1]), (1, [JVal.num 2])]⟩ : DFrame).rows ∧
    (∀ data : List (List JVal),
        extractLoop [FieldPath.name "a"] []
            [JVal.obj [("a", JVal.num 2)], JVal.obj [("a", JVal.num 1)]] [] = .ok data →
        sort_values_contract (mkDFrame data ["a"]) (sort_values (mkDFrame data ["a"]))) ∧
    (⟨["a"], [(0, [JVal.num 1]), (1, [JVal.num 2])]⟩ : DFrame).rows.map Prod.fst =
      List.range (⟨["a"], [(0, [JVal.num 1]), (1, [JVal.num 2])]⟩ : DFrame).rows.length :=
  claim4_theorem [JVal.obj [("a", JVal.num 2)], JVal.obj [("a", JVal.num 1)]] ["a"]
    [FieldPath.name "a"] [] ⟨["a"], [(0, [JVal.num 1]), (1, [JVal.num 2])]⟩
    (by simp +decide [json_data_extraction, extractLoop, hasCount, countEq, jlookup,
      lookupField, buildRow, getField, applyMaps, mkDFrame, sort_values, reset_index,
      List.insertionSort, List.orderedInsert, List.enum, List.enumFrom, List.find?])
